import Mathlib

/-!
Shallow embedding of the spaced-repetition scheduler and one-time-code
authenticator of the yur-law backend (src/src/index.ts).  The source file is a
concatenation of several near-identical server variants; the definitions below
are translated from the route handlers and helpers the claims point at.
Timestamps are modelled as integer milliseconds since the epoch, the database
tables as Lean lists, and the process-wide `global.authCodes` JavaScript `Map`
as an association list with JavaScript `Map` semantics.
-/

namespace YurLaw

/-! Data model: one `UserProgress` row per user and topic (src/src/index.ts,
Prisma model referenced by the handlers).  `updatedAt` is the row timestamp
Prisma maintains on every update; the due-list query orders by it. -/

structure Progress where
  userId : String
  topicId : String
  masteryLevel : Int
  lastReviewed : Option Int
  nextReview : Option Int
  updatedAt : Int
deriving Repr, DecidableEq

/-- Milliseconds in a day, as in `nextDays * 24 * 60 * 60 * 1000` (line 259). -/
def msPerDay : Int := 24 * 60 * 60 * 1000

/-- Embeds `getNextIntervalDaysByMastery` (src/src/index.ts lines 153-158):
the ladder `[1, 2, 4, 7, 14, 30]` indexed by
`Math.max(0, Math.min(masteryLevel, mapping.length - 1))`. -/
def getNextIntervalDaysByMastery (masteryLevel : Int) : Int :=
  let mapping : List Int := [1, 2, 4, 7, 14, 30]
  let idx : Int := max 0 (min masteryLevel ((mapping.length : Int) - 1))
  mapping.getD idx.toNat 0

/-- Result of the grade route: a 400 response for missing or out-of-range
input, or the JSON body `masteryLevel` and `nextReview` on success. -/
inductive GradeResult where
  | invalidInput
  | ok (masteryLevel : Int) (nextReview : Int)
deriving Repr, DecidableEq

/-- Embeds `prisma.userProgress.findFirst(where userId, topicId)`:
the first row of the table matching both keys. -/
def findProg (store : List Progress) (u t : String) : Option Progress :=
  store.find? fun p => p.userId == u && p.topicId == t

/-- Embeds `prisma.userProgress.update` keyed by the id of the row that
`findFirst` returned: exactly the first row matching the key is rewritten. -/
def updateFirst (u t : String) (f : Progress → Progress) : List Progress → List Progress
  | [] => []
  | p :: rest =>
      if p.userId == u && p.topicId == t then f p :: rest
      else p :: updateFirst u t f rest

/-- Embeds the handler of `POST /api/review/grade` (src/src/index.ts lines
228-279): reject a missing topic or a quality outside `0..5` with a 400 and no
write; otherwise find or lazily create the progress row, compute the new
mastery level and next-review date, persist, and return both. -/
def gradeReview (store : List Progress) (userId topicId : String)
    (quality : Int) (now : Int) : GradeResult × List Progress :=
  if topicId = "" then (GradeResult.invalidInput, store)
  else if quality < 0 ∨ quality > 5 then (GradeResult.invalidInput, store)
  else
    let found := findProg store userId topicId
    let progress : Progress :=
      match found with
      | some p => p
      | none => ⟨userId, topicId, 0, none, none, now⟩
    let store1 : List Progress :=
      match found with
      | some _ => store
      | none => store ++ [⟨userId, topicId, 0, none, none, now⟩]
    let newMastery : Int :=
      if quality ≥ 3 then min 5 (progress.masteryLevel + 1) else 0
    let nextDays : Int :=
      if quality ≥ 3 then getNextIntervalDaysByMastery newMastery else 1
    let next : Int := now + nextDays * msPerDay
    let store2 := updateFirst userId topicId
      (fun p => { p with masteryLevel := newMastery, lastReviewed := some now,
                         nextReview := some next, updatedAt := now }) store1
    (GradeResult.ok newMastery next, store2)

/-! Due-item selection and progress summary (mastery-threshold server variant,
src/src/index.ts lines 1051-1123, plus the date-based variant of the first
server file, lines 160-226). -/

/-- Modelled from the spec: the relational store and its `orderBy` are outside
src/, so the placement of null `nextReview` values is taken from the spec
(nulls sort first, as most overdue).  Within that, the comparator embeds the
query `orderBy nextReview asc, updatedAt desc` of the due route: `a` sorts no
later than `b` when its `nextReview` is earlier (null first), ties broken by
the larger `updatedAt`. -/
def dueLE (a b : Progress) : Bool :=
  match a.nextReview, b.nextReview with
  | none, none => decide (b.updatedAt ≤ a.updatedAt)
  | none, some _ => true
  | some _, none => false
  | some x, some y => decide (x < y ∨ (x = y ∧ b.updatedAt ≤ a.updatedAt))

/-- Embeds the `where` clause of `GET /api/review/due` in the
mastery-threshold variant (lines 1091-1095): the rows of the user with
`masteryLevel < 3`. -/
def dueCandidates (store : List Progress) (u : String) : List Progress :=
  store.filter fun p => p.userId == u && decide (p.masteryLevel < 3)

/-- Embeds the handler of `GET /api/review/due` in the mastery-threshold
variant (src/src/index.ts lines 1087-1123): the user's not-yet-mastered rows,
ordered by `nextReview` ascending then `updatedAt` descending, first 20. -/
def listDue (store : List Progress) (u : String) : List Progress :=
  ((dueCandidates store u).mergeSort dueLE).take 20

/-- Embeds the `where` clause of `GET /api/review/due` in the date-based
variant of the first server file (lines 191-198): rows whose `nextReview` is
at most `now` or null, with no mastery filter. -/
def dueCandidatesByDate (store : List Progress) (u : String) (now : Int) : List Progress :=
  store.filter fun p =>
    p.userId == u && ((p.nextReview.any fun d => decide (d ≤ now)) || p.nextReview == none)

/-- Embeds the handler of `GET /api/review/due` in the date-based variant
(src/src/index.ts lines 187-226). -/
def listDueByDate (store : List Progress) (u : String) (now : Int) : List Progress :=
  ((dueCandidatesByDate store u now).mergeSort dueLE).take 20

/-- One `QuizAttempt` row, as read by the summary route. -/
structure QuizAttempt where
  userId : String
  score : Int
deriving Repr, DecidableEq

/-- Response body of `GET /api/progress/summary`. -/
structure Summary where
  totalAttempts : Nat
  avgScore : Int
  masteredTopics : Nat
  totalTrackedTopics : Nat
  dueCount : Nat
deriving Repr, DecidableEq

/-- Embeds `Math.round(sum / n)` over exact rationals:
`Math.round x = floor (x + 1/2)`, and for the mean of `sum` over `n` items
this is `floor ((2 * sum + n) / (2 * n))`. -/
def roundAvg (sum : Int) (n : Nat) : Int :=
  Int.fdiv (2 * sum + n) (2 * n)

/-- Embeds the handler of `GET /api/progress/summary` in the
mastery-threshold variant (src/src/index.ts lines 1058-1085): attempt count,
rounded average score (0 with no attempts), mastered count
(`masteryLevel >= 3`), tracked-topic count, and due count
(`masteryLevel < 3`). -/
def progressSummary (attempts : List QuizAttempt) (store : List Progress)
    (u : String) : Summary :=
  let userAttempts := attempts.filter fun a => a.userId == u
  let progress := store.filter fun p => p.userId == u
  let totalAttempts := userAttempts.length
  let scoreSum : Int := userAttempts.foldl (fun s a => s + a.score) 0
  let avgScore : Int := if totalAttempts > 0 then roundAvg scoreSum totalAttempts else 0
  let masteredTopics := (progress.filter fun p => decide (p.masteryLevel ≥ 3)).length
  let dueCount := (progress.filter fun p => decide (p.masteryLevel < 3)).length
  ⟨totalAttempts, avgScore, masteredTopics, progress.length, dueCount⟩

/-- Embeds the `dueCount` of the date-based summary variant (line 167):
`count(where userId, nextReview <= now)`. -/
def dueCountByDate (store : List Progress) (u : String) (now : Int) : Nat :=
  (store.filter fun p =>
    p.userId == u && (p.nextReview.any fun d => decide (d ≤ now))).length

/-! One-time-code authenticator (src/src/index.ts lines 490-680 for the
email and SMS channels, lines 1852-1958 for the Telegram bot channel; the
second server file repeats the email and SMS handlers verbatim at lines
1387-1577, and the fourth repeats the email handlers at lines 2240-2350).
The process-wide `global.authCodes` JavaScript `Map` keyed by the code string
is modelled as an association list with `Map` semantics: `set` overwrites the
entry of an existing key in place, `delete` removes it. -/

/-- One record of the code registry: exactly one of `email`, `phone`,
`telegramId` is populated by the issuing route. -/
structure CodeEntry where
  email : Option String := none
  phone : Option String := none
  telegramId : Option String := none
  expiresAt : Int
deriving Repr, DecidableEq

/-- The process-wide code registry `global.authCodes`. -/
abbrev AuthCodes : Type := List (String × CodeEntry)

/-- JavaScript `Map.get`. -/
def mapGet (m : AuthCodes) (k : String) : Option CodeEntry :=
  List.lookup k m

/-- JavaScript `Map.set`: overwrite the entry of an existing key in place,
else append. -/
def mapSet (k : String) (v : CodeEntry) : AuthCodes → AuthCodes
  | [] => [(k, v)]
  | (k', v') :: rest => if k' == k then (k, v) :: rest else (k', v') :: mapSet k v rest

/-- JavaScript `Map.delete`: remove the entry of the key, if present. -/
def mapDelete (k : String) : AuthCodes → AuthCodes
  | [] => []
  | (k', v') :: rest => if k' == k then rest else (k', v') :: mapDelete k rest

/-- Well-formedness of the association-list model: distinct keys, as holds for
every list arising from a JavaScript `Map`. -/
abbrev MapWF (m : AuthCodes) : Prop :=
  (List.map Prod.fst m).Nodup

/-- One `User` row, restricted to the fields the auth flows read or write. -/
structure User where
  id : Nat
  email : Option String := none
  phone : Option String := none
  telegramId : Option String := none
  name : Option String := none
deriving Repr, DecidableEq

/-- Result of an issuing route: a 400 for a missing identity, else success
(the delivery outcome never changes it). -/
inductive IssueResult where
  | missingInput
  | success
deriving Repr, DecidableEq

/-- Result of a verification route. -/
inductive VerifyResult where
  | missingInput
  | invalidCode
  | codeExpired
  | internalError
  | ok (user : User)
deriving Repr, DecidableEq

/-- Five minutes in milliseconds: `5 * 60 * 1000` (lines 500, 613, 1862). -/
def codeTTLms : Int := 5 * 60 * 1000

def emptyString : String := ""

def atSign : String := "@"

def telegramSuffix : String := "@telegram.local"

/-- Embeds `email.split(atSign)[0]` of the email verify route (line 580). -/
def localPart (email : String) : String :=
  (email.splitOn atSign).headD emptyString

/-- Embeds the handler of `POST /api/auth/send-email-code` (src/src/index.ts
lines 490-548): bind the generated code to the email for five minutes, attempt
the delivery, and report success whatever the delivery outcome (the `catch`
only logs).  The generated code and the delivery outcome are parameters. -/
def sendEmailCode (registry : AuthCodes) (email code : String)
    (deliveryOk : Bool) (now : Int) : IssueResult × AuthCodes :=
  if email = "" then (IssueResult.missingInput, registry)
  else
    let registry1 := mapSet code { email := some email, expiresAt := now + codeTTLms } registry
    let _ := deliveryOk
    (IssueResult.success, registry1)

/-- Embeds the handler of `POST /api/auth/send-sms-code` (src/src/index.ts
lines 603-646); like the email route, the `catch` around the SMS call only
logs. -/
def sendSmsCode (registry : AuthCodes) (phone code : String)
    (deliveryOk : Bool) (now : Int) : IssueResult × AuthCodes :=
  if phone = "" then (IssueResult.missingInput, registry)
  else
    let registry1 := mapSet code { phone := some phone, expiresAt := now + codeTTLms } registry
    let _ := deliveryOk
    (IssueResult.success, registry1)

/-- Embeds the handler of `POST /api/auth/request-code` (src/src/index.ts
lines 1852-1901): note `const authCodes = new Map()` — the route builds a
brand-new empty map holding only the new code, then installs it as
`global.authCodes`, discarding every previously issued code. -/
def requestBotCode (registry : AuthCodes) (telegramId code : String)
    (deliveryOk : Bool) (now : Int) : IssueResult × AuthCodes :=
  if telegramId = "" then (IssueResult.missingInput, registry)
  else
    let authCodes : AuthCodes := []
    let authCodes := mapSet code
      { telegramId := some telegramId, expiresAt := now + codeTTLms } authCodes
    let _ := deliveryOk
    (IssueResult.success, authCodes)

/-- Embeds `prisma.user.findUnique(where email)` plus the lazy create of the
email verify route (lines 571-583).  Fresh ids are modelled as the table
length. -/
def findOrCreateByEmail (users : List User) (email : String) : User × List User :=
  match users.find? (fun u => u.email == some email) with
  | some u => (u, users)
  | none =>
      let u : User := { id := users.length, email := some email, name := some (localPart email) }
      (u, users ++ [u])

/-- Embeds `prisma.user.findFirst(where phone)` plus the lazy create of the
SMS verify route (lines 668-672). -/
def findOrCreateByPhone (users : List User) (phone : String) : User × List User :=
  match users.find? (fun u => u.phone == some phone) with
  | some u => (u, users)
  | none =>
      let u : User := { id := users.length, phone := some phone, name := some phone }
      (u, users ++ [u])

/-- Embeds `prisma.user.findUnique(where telegramId)` plus the lazy create of
the bot verify route (lines 1924-1939); the created row derives its email from
the telegram id. -/
def findOrCreateByTelegramId (users : List User) (tid : String) : User × List User :=
  match users.find? (fun u => u.telegramId == some tid) with
  | some u => (u, users)
  | none =>
      let u : User := { id := users.length, telegramId := some tid,
                        email := some (tid ++ telegramSuffix) }
      (u, users ++ [u])

/-- Embeds the handler of `POST /api/auth/verify-email-code` (src/src/index.ts
lines 550-600): absent code → invalid, stale code → delete and expire, else
resolve or create the user and delete the code.  `internalError` models the
500 produced when the looked-up entry carries no email (Prisma rejects a
`findUnique` on an undefined key). -/
def verifyEmailCode (registry : AuthCodes) (users : List User) (code : String)
    (now : Int) : VerifyResult × AuthCodes × List User :=
  if code = "" then (VerifyResult.missingInput, registry, users)
  else
    match mapGet registry code with
    | none => (VerifyResult.invalidCode, registry, users)
    | some codeData =>
        if now > codeData.expiresAt then
          (VerifyResult.codeExpired, mapDelete code registry, users)
        else
          match codeData.email with
          | none => (VerifyResult.internalError, registry, users)
          | some email =>
              let fc := findOrCreateByEmail users email
              (VerifyResult.ok fc.1, mapDelete code registry, fc.2)

/-- Embeds the handler of `POST /api/auth/verify-sms-code` (src/src/index.ts
lines 648-680).  The identity check `codeData.phone !== phone` runs BEFORE the
expiry check and does not delete the entry on mismatch. -/
def verifySmsCode (registry : AuthCodes) (users : List User) (code phone : String)
    (now : Int) : VerifyResult × AuthCodes × List User :=
  if code = "" ∨ phone = "" then (VerifyResult.missingInput, registry, users)
  else
    match mapGet registry code with
    | none => (VerifyResult.invalidCode, registry, users)
    | some codeData =>
        if codeData.phone ≠ some phone then (VerifyResult.invalidCode, registry, users)
        else if now > codeData.expiresAt then
          (VerifyResult.codeExpired, mapDelete code registry, users)
        else
          let fc := findOrCreateByPhone users phone
          (VerifyResult.ok fc.1, mapDelete code registry, fc.2)

/-- Embeds the handler of `POST /api/auth/verify-code` for the bot channel
(src/src/index.ts lines 1903-1958); same state machine as the email variant,
keyed by telegram id. -/
def verifyBotCode (registry : AuthCodes) (users : List User) (code : String)
    (now : Int) : VerifyResult × AuthCodes × List User :=
  if code = "" then (VerifyResult.missingInput, registry, users)
  else
    match mapGet registry code with
    | none => (VerifyResult.invalidCode, registry, users)
    | some codeData =>
        if now > codeData.expiresAt then
          (VerifyResult.codeExpired, mapDelete code registry, users)
        else
          match codeData.telegramId with
          | none => (VerifyResult.internalError, registry, users)
          | some tid =>
              let fc := findOrCreateByTelegramId users tid
              (VerifyResult.ok fc.1, mapDelete code registry, fc.2)

/-! Concrete inputs used by the witness theorems. -/

def uW : String := "u"

def tW : String := "t"

def codeW : String := "123456"

def codeW2 : String := "654321"

def emailW : String := "alice@example.com"

def phoneW : String := "+71234567890"

def phoneW2 : String := "+79998887766"

def tidW : String := "42"

def regW : AuthCodes := [(codeW, { email := some emailW, expiresAt := 300000 })]

def regSmsW : AuthCodes := [(codeW, { phone := some phoneW, expiresAt := 300000 })]

def regExpiredW : AuthCodes := [(codeW, { email := some emailW, expiresAt := 0 })]

def regSmsExpiredW : AuthCodes := [(codeW, { phone := some phoneW, expiresAt := 0 })]

def regBotExpiredW : AuthCodes := [(codeW, { telegramId := some tidW, expiresAt := 0 })]

end YurLaw

namespace YurLaw

lemma findProg_append_none {store : List Progress} {u t : String}
    (l : List Progress) (h : findProg store u t = none) :
    findProg (store ++ l) u t = findProg l u t := by
  induction store with
  | nil => rfl
  | cons q rest ih =>
      by_cases hq : (q.userId == u && q.topicId == t) = true
      · exfalso
        have h' : List.find? (fun p => p.userId == u && p.topicId == t) (q :: rest) = none := h
        rw [List.find?_cons_of_pos rest hq] at h'
        cases h'
      · have h' : List.find? (fun p => p.userId == u && p.topicId == t) (q :: rest) = none := h
        rw [List.find?_cons_of_neg rest hq] at h'
        show List.find? (fun p => p.userId == u && p.topicId == t) (q :: (rest ++ l)) =
          findProg l u t
        rw [List.find?_cons_of_neg (rest ++ l) hq]
        exact ih h'

lemma findProg_updateFirst {store : List Progress} {u t : String} {p : Progress}
    (f : Progress → Progress)
    (hid : ∀ q, (f q).userId = q.userId) (htop : ∀ q, (f q).topicId = q.topicId)
    (h : findProg store u t = some p) :
    findProg (updateFirst u t f store) u t = some (f p) := by
  induction store with
  | nil => cases h
  | cons q rest ih =>
      by_cases hq : (q.userId == u && q.topicId == t) = true
      · have h' : List.find? (fun p => p.userId == u && p.topicId == t) (q :: rest) = some q :=
          List.find?_cons_of_pos rest hq
        have hpq : p = q := by
          have h2 : some q = some p := h'.symm.trans h
          exact (Option.some.inj h2).symm
        subst hpq
        have hfq : ((f p).userId == u && (f p).topicId == t) = true := by
          rw [hid, htop]; exact hq
        show findProg (if (p.userId == u && p.topicId == t) = true then
            f p :: rest else p :: updateFirst u t f rest) u t = some (f p)
        rw [if_pos hq]
        show List.find? (fun r => r.userId == u && r.topicId == t) (f p :: rest) = some (f p)
        rw [List.find?_cons_of_pos rest hfq]
      · have h' : List.find? (fun r => r.userId == u && r.topicId == t) (q :: rest) = some p := h
        rw [List.find?_cons_of_neg rest hq] at h'
        show findProg (if (q.userId == u && q.topicId == t) = true then
            f q :: rest else q :: updateFirst u t f rest) u t = some (f p)
        rw [if_neg hq]
        show List.find? (fun r => r.userId == u && r.topicId == t)
          (q :: updateFirst u t f rest) = some (f p)
        rw [List.find?_cons_of_neg (updateFirst u t f rest) hq]
        exact ih h'

lemma findProg_singleton_self (u t : String) (p : Progress)
    (hu : p.userId = u) (ht : p.topicId = t) :
    findProg [p] u t = some p := by
  have hq : (p.userId == u && p.topicId == t) = true := by
    rw [hu, ht]; simp
  exact List.find?_cons_of_pos [] hq

/-- C2: for levels 0..5 the interval function returns the corresponding entry
of the ladder [1, 2, 4, 7, 14, 30]; negative levels clamp to the entry for 0
and levels above 5 clamp to the entry for 5. -/
theorem getNextIntervalDaysByMastery_spec (level : Int) :
    getNextIntervalDaysByMastery level =
      if level < 0 then 1
      else if 5 < level then 30
      else ([1, 2, 4, 7, 14, 30] : List Int).getD level.toNat 0 := by
  simp only [getNextIntervalDaysByMastery]
  have h5 : ((([1, 2, 4, 7, 14, 30] : List Int).length : Int) - 1) = 5 := by norm_num
  rw [h5]
  by_cases h1 : level < 0
  · have hidx : (max 0 (min level (5 : Int))).toNat = 0 := by omega
    rw [hidx, if_pos h1]
    rfl
  · by_cases h2 : 5 < level
    · have hidx : (max 0 (min level (5 : Int))).toNat = 5 := by omega
      rw [hidx, if_neg h1, if_pos h2]
      rfl
    · have hidx : (max 0 (min level (5 : Int))).toNat = level.toNat := by omega
      rw [hidx, if_neg h1, if_neg h2]

/-- C1: grading with an in-range quality stores and returns
min(5, previous level + 1) with a next review after intervalForLevel(new level)
days on a pass, or level 0 with a next review after 1 day on a fail, and stamps
lastReviewed with the current time in both cases. -/
theorem gradeReview_ok (store : List Progress) (u t : String) (q now : Int)
    (ht : t ≠ "") (h0 : 0 ≤ q) (h5 : q ≤ 5) :
    ∃ newLevel nr : Int,
      newLevel = (if 3 ≤ q then
          min 5 ((findProg store u t).elim 0 Progress.masteryLevel + 1) else 0) ∧
      nr = now + (if 3 ≤ q then getNextIntervalDaysByMastery newLevel else 1) * msPerDay ∧
      (gradeReview store u t q now).1 = GradeResult.ok newLevel nr ∧
      ∃ p, findProg (gradeReview store u t q now).2 u t = some p ∧
        p.masteryLevel = newLevel ∧ p.lastReviewed = some now ∧
        p.nextReview = some nr := by
  have hrange : ¬ (q < 0 ∨ q > 5) := by omega
  simp only [gradeReview, if_neg ht, if_neg hrange]
  cases hf : findProg store u t with
  | some p =>
      simp only [hf, Option.elim]
      refine ⟨_, _, rfl, rfl, rfl, ?_⟩
      exact ⟨_, findProg_updateFirst _ (fun _ => rfl) (fun _ => rfl) hf, rfl, rfl, rfl⟩
  | none =>
      simp only [hf, Option.elim]
      refine ⟨_, _, rfl, rfl, rfl, ?_⟩
      have h1 : findProg (store ++ [(⟨u, t, 0, none, none, now⟩ : Progress)]) u t =
          some ⟨u, t, 0, none, none, now⟩ := by
        rw [findProg_append_none _ hf]
        exact findProg_singleton_self u t _ rfl rfl
      exact ⟨_, findProg_updateFirst _ (fun _ => rfl) (fun _ => rfl) h1, rfl, rfl, rfl⟩

/-- Witness for C1 at a concrete grading event: a quality-5 review of a fresh
topic moves it to level 1 with the next review two days out. -/
theorem gradeReview_ok_witness :
    tW ≠ "" ∧ ((0 : Int) ≤ 5) ∧ ((5 : Int) ≤ 5) ∧
    (∃ newLevel nr : Int,
      newLevel = (if 3 ≤ (5 : Int) then
          min 5 ((findProg [] uW tW).elim 0 Progress.masteryLevel + 1) else 0) ∧
      nr = 0 + (if 3 ≤ (5 : Int) then getNextIntervalDaysByMastery newLevel else 1) * msPerDay ∧
      (gradeReview [] uW tW 5 0).1 = GradeResult.ok newLevel nr ∧
      ∃ p, findProg (gradeReview [] uW tW 5 0).2 uW tW = some p ∧
        p.masteryLevel = newLevel ∧ p.lastReviewed = some 0 ∧
        p.nextReview = some nr) :=
  ⟨by decide, by decide, by decide,
    gradeReview_ok [] uW tW 5 0 (by decide) (by decide) (by decide)⟩

/-- C3: an out-of-range quality is rejected with a 400 and the progress table
is left exactly as it was. -/
theorem gradeReview_invalid (store : List Progress) (u t : String) (q now : Int)
    (h : q < 0 ∨ 5 < q) :
    gradeReview store u t q now = (GradeResult.invalidInput, store) := by
  unfold gradeReview
  by_cases ht : t = ""
  · rw [if_pos ht]
  · rw [if_neg ht, if_pos h]

lemma dueLE_trans : ∀ a b c : Progress,
    dueLE a b = true → dueLE b c = true → dueLE a c = true := by
  intro a b c hab hbc
  cases ha : a.nextReview <;> cases hb : b.nextReview <;> cases hc : c.nextReview <;>
    simp_all [dueLE] <;> omega

lemma dueLE_total : ∀ a b : Progress, (dueLE a b || dueLE b a) = true := by
  intro a b
  cases ha : a.nextReview <;> cases hb : b.nextReview <;>
    simp [dueLE, ha, hb] <;> omega

lemma mem_dueCandidates {store : List Progress} {u : String} {p : Progress} :
    p ∈ dueCandidates store u ↔ p ∈ store ∧ p.userId = u ∧ p.masteryLevel < 3 := by
  simp [dueCandidates, List.mem_filter, and_assoc]

/-- C6: the due list is exactly the user's records below mastery 3, sorted by
nextReview ascending with nulls first and ties most-recently-updated first,
capped at 20. -/
theorem listDue_spec (store : List Progress) (u : String) :
    (∀ p ∈ listDue store u, p.userId = u ∧ p.masteryLevel < 3) ∧
    (listDue store u).length ≤ 20 ∧
    (listDue store u).Pairwise (fun a b => dueLE a b = true) ∧
    ((dueCandidates store u).length ≤ 20 →
      ∀ p ∈ store, p.userId = u → p.masteryLevel < 3 → p ∈ listDue store u) := by
  have hperm := List.mergeSort_perm (dueCandidates store u) dueLE
  refine ⟨?_, ?_, ?_, ?_⟩
  · intro p hp
    have hp1 : p ∈ (dueCandidates store u).mergeSort dueLE := List.mem_of_mem_take hp
    have hp2 : p ∈ dueCandidates store u := hperm.mem_iff.mp hp1
    exact (mem_dueCandidates.mp hp2).2
  · exact List.length_take_le 20 _
  · exact List.Pairwise.sublist (List.take_sublist 20 _)
      (List.sorted_mergeSort dueLE_trans dueLE_total (dueCandidates store u))
  · intro hlen p hmem hu hm
    have hc : p ∈ dueCandidates store u := mem_dueCandidates.mpr ⟨hmem, hu, hm⟩
    have hms : p ∈ (dueCandidates store u).mergeSort dueLE := hperm.mem_iff.mpr hc
    have hlen2 : ((dueCandidates store u).mergeSort dueLE).length ≤ 20 := by
      rw [hperm.length_eq]; exact hlen
    show p ∈ ((dueCandidates store u).mergeSort dueLE).take 20
    rw [List.take_of_length_le hlen2]
    exact hms

lemma foldl_score (l : List QuizAttempt) (init : Int) :
    l.foldl (fun s a => s + a.score) init = init + (l.map QuizAttempt.score).sum := by
  induction l generalizing init with
  | nil => simp
  | cons a rest ih => simp [List.foldl_cons, ih, add_assoc]

lemma length_filter_mastery_split (l : List Progress) :
    (l.filter fun p => decide (p.masteryLevel ≥ 3)).length +
      (l.filter fun p => decide (p.masteryLevel < 3)).length = l.length := by
  induction l with
  | nil => rfl
  | cons p rest ih =>
      by_cases h : p.masteryLevel ≥ 3
      · have h1 : decide (p.masteryLevel ≥ 3) = true := by simpa using h
        have h2 : decide (p.masteryLevel < 3) = false := by
          simpa using (by omega : ¬ p.masteryLevel < 3)
        simp only [List.filter_cons, h1, h2, if_true, if_false, List.length_cons,
          Bool.false_eq_true]
        omega
      · have h1 : decide (p.masteryLevel ≥ 3) = false := by simpa using h
        have h2 : decide (p.masteryLevel < 3) = true := by
          simpa using (by omega : p.masteryLevel < 3)
        simp only [List.filter_cons, h1, h2, if_true, if_false, List.length_cons,
          Bool.false_eq_true]
        omega

lemma filter_filter_due (store : List Progress) (u : String) :
    ((store.filter fun p => p.userId == u).filter fun p => decide (p.masteryLevel < 3)) =
      dueCandidates store u := by
  rw [List.filter_filter]
  exact List.filter_congr fun p _ => by rw [Bool.and_comm]

lemma roundAvg_bounds (sum : Int) (n : Nat) (h : 0 < n) :
    -(n : Int) ≤ 2 * (sum - (n : Int) * roundAvg sum n) ∧
      2 * (sum - (n : Int) * roundAvg sum n) < (n : Int) := by
  have hb : (0 : Int) < 2 * (n : Int) := by omega
  unfold roundAvg
  rw [Int.fdiv_eq_ediv _ (le_of_lt hb)]
  have hdiv := Int.ediv_add_emod (2 * sum + (n : Int)) (2 * (n : Int))
  have hmod := Int.emod_nonneg (2 * sum + (n : Int)) (ne_of_gt hb)
  have hlt := Int.emod_lt_of_pos (2 * sum + (n : Int)) hb
  have key : 2 * (sum - (n : Int) * ((2 * sum + (n : Int)) / (2 * (n : Int)))) =
      (2 * sum + (n : Int)) % (2 * (n : Int)) - (n : Int) := by linear_combination -hdiv
  constructor
  · rw [key]; linarith
  · rw [key]; linarith

/-- C7: the summary reports the attempt count, an average within half a point
of the true mean (0 with no attempts), the mastered count at threshold 3, the
tracked-topic count, and a due count by the same mastery rule as the due
list; mastered and due partition the tracked topics. -/
theorem progressSummary_spec (attempts : List QuizAttempt) (store : List Progress)
    (u : String) :
    (progressSummary attempts store u).totalAttempts =
      (attempts.filter fun a => a.userId == u).length ∧
    ((progressSummary attempts store u).totalAttempts = 0 →
      (progressSummary attempts store u).avgScore = 0) ∧
    (0 < (progressSummary attempts store u).totalAttempts →
      -((progressSummary attempts store u).totalAttempts : Int) ≤
        2 * (((attempts.filter fun a => a.userId == u).map QuizAttempt.score).sum -
          ((progressSummary attempts store u).totalAttempts : Int) *
            (progressSummary attempts store u).avgScore) ∧
      2 * (((attempts.filter fun a => a.userId == u).map QuizAttempt.score).sum -
          ((progressSummary attempts store u).totalAttempts : Int) *
            (progressSummary attempts store u).avgScore) <
        ((progressSummary attempts store u).totalAttempts : Int)) ∧
    (progressSummary attempts store u).masteredTopics =
      ((store.filter fun p => p.userId == u).filter fun p =>
        decide (p.masteryLevel ≥ 3)).length ∧
    (progressSummary attempts store u).totalTrackedTopics =
      (store.filter fun p => p.userId == u).length ∧
    (progressSummary attempts store u).dueCount = (dueCandidates store u).length ∧
    (progressSummary attempts store u).masteredTopics +
        (progressSummary attempts store u).dueCount =
      (progressSummary attempts store u).totalTrackedTopics := by
  refine ⟨rfl, ?_, ?_, rfl, rfl, ?_, ?_⟩
  · intro h0
    have h1 : (attempts.filter fun a => a.userId == u).length = 0 := h0
    show (if 0 < (attempts.filter fun a => a.userId == u).length then
        roundAvg ((attempts.filter fun a => a.userId == u).foldl
          (fun s a => s + a.score) 0)
          (attempts.filter fun a => a.userId == u).length else 0) = 0
    rw [if_neg (by omega)]
  · intro h0
    have h0' : 0 < (attempts.filter fun a => a.userId == u).length := h0
    show -(((attempts.filter fun a => a.userId == u).length : Int)) ≤
        2 * (((attempts.filter fun a => a.userId == u).map QuizAttempt.score).sum -
          ((attempts.filter fun a => a.userId == u).length : Int) *
          (if 0 < (attempts.filter fun a => a.userId == u).length then
            roundAvg ((attempts.filter fun a => a.userId == u).foldl
              (fun s a => s + a.score) 0)
              (attempts.filter fun a => a.userId == u).length else 0)) ∧
      2 * (((attempts.filter fun a => a.userId == u).map QuizAttempt.score).sum -
          ((attempts.filter fun a => a.userId == u).length : Int) *
          (if 0 < (attempts.filter fun a => a.userId == u).length then
            roundAvg ((attempts.filter fun a => a.userId == u).foldl
              (fun s a => s + a.score) 0)
              (attempts.filter fun a => a.userId == u).length else 0)) <
        ((attempts.filter fun a => a.userId == u).length : Int)
    rw [if_pos h0', foldl_score, zero_add]
    exact roundAvg_bounds _ _ h0'
  · show ((store.filter fun p => p.userId == u).filter fun p =>
        decide (p.masteryLevel < 3)).length = (dueCandidates store u).length
    rw [filter_filter_due]
  · exact length_filter_mastery_split _

lemma lookup_cons_self {a k : String} {b : CodeEntry} {es : AuthCodes}
    (h : (a == k) = true) : List.lookup a ((k, b) :: es) = some b := by
  rw [List.lookup_cons, h]

lemma lookup_cons_ne {a k : String} {b : CodeEntry} {es : AuthCodes}
    (h : (a == k) = false) : List.lookup a ((k, b) :: es) = List.lookup a es := by
  rw [List.lookup_cons, h]

lemma mapGet_eq_none_of_not_mem {m : AuthCodes} {k : String}
    (h : k ∉ List.map Prod.fst m) : mapGet m k = none := by
  induction m with
  | nil => rfl
  | cons kv rest ih =>
      obtain ⟨k', v'⟩ := kv
      simp only [List.map_cons, List.mem_cons] at h
      push_neg at h
      show List.lookup k ((k', v') :: rest) = none
      rw [lookup_cons_ne (beq_eq_false_iff_ne.mpr h.1)]
      exact ih h.2

lemma mapGet_mapDelete_self {m : AuthCodes} {k : String} (h : MapWF m) :
    mapGet (mapDelete k m) k = none := by
  induction m with
  | nil => rfl
  | cons kv rest ih =>
      obtain ⟨k', v'⟩ := kv
      have h' := (List.nodup_cons.mp h)
      show mapGet (if (k' == k) = true then rest else (k', v') :: mapDelete k rest) k = none
      by_cases hk : (k' == k) = true
      · rw [if_pos hk]
        have hkk : k = k' := (beq_iff_eq.mp hk).symm
        apply mapGet_eq_none_of_not_mem
        rw [hkk]
        exact h'.1
      · rw [if_neg hk]
        have hkk : k ≠ k' := by
          intro he
          apply hk
          rw [he]
          exact beq_self_eq_true k'
        have hne : (k == k') = false := beq_eq_false_iff_ne.mpr hkk
        show List.lookup k ((k', v') :: mapDelete k rest) = none
        rw [lookup_cons_ne hne]
        exact ih h'.2

lemma mapGet_singleton_ne {c k : String} {v : CodeEntry} (h : (c == k) = false) :
    mapGet [(k, v)] c = none := by
  show List.lookup c [(k, v)] = none
  rw [lookup_cons_ne h]
  rfl

lemma mapGet_mapSet_self (m : AuthCodes) (k : String) (v : CodeEntry) :
    mapGet (mapSet k v m) k = some v := by
  induction m with
  | nil => exact lookup_cons_self (beq_self_eq_true k)
  | cons kv rest ih =>
      obtain ⟨k', v'⟩ := kv
      show mapGet (if (k' == k) = true then (k, v) :: rest
        else (k', v') :: mapSet k v rest) k = some v
      by_cases hk : (k' == k) = true
      · rw [if_pos hk]
        exact lookup_cons_self (beq_self_eq_true k)
      · rw [if_neg hk]
        have hkk : k ≠ k' := by
          intro he
          apply hk
          rw [he]
          exact beq_self_eq_true k'
        have hne : (k == k') = false := beq_eq_false_iff_ne.mpr hkk
        show List.lookup k ((k', v') :: mapSet k v rest) = some v
        rw [lookup_cons_ne hne]
        exact ih

/-- C4: a live code verifies successfully exactly once — the first call
deletes the registry entry and a repeat call fails with InvalidCode — and a
code absent from the registry fails with InvalidCode without mutating
anything, in the email and SMS variants. -/
theorem verifyCode_single_use (reg : AuthCodes) (users : List User) (code : String)
    (now : Int) (hwf : MapWF reg) (hc : code ≠ "") :
    (∀ cd e, mapGet reg code = some cd → cd.email = some e → now ≤ cd.expiresAt →
      (∃ u, (verifyEmailCode reg users code now).1 = VerifyResult.ok u) ∧
      (verifyEmailCode reg users code now).2.1 = mapDelete code reg) ∧
    (∀ cd ph, ph ≠ "" → mapGet reg code = some cd → cd.phone = some ph →
        now ≤ cd.expiresAt →
      (∃ u, (verifySmsCode reg users code ph now).1 = VerifyResult.ok u) ∧
      (verifySmsCode reg users code ph now).2.1 = mapDelete code reg) ∧
    (∀ users2 now2,
      (verifyEmailCode (mapDelete code reg) users2 code now2).1 =
        VerifyResult.invalidCode ∧
      (verifyEmailCode (mapDelete code reg) users2 code now2).2.1 =
        mapDelete code reg ∧
      ∀ ph2, ph2 ≠ "" →
        verifySmsCode (mapDelete code reg) users2 code ph2 now2 =
          (VerifyResult.invalidCode, mapDelete code reg, users2)) ∧
    (∀ c ph2, c ≠ "" → ph2 ≠ "" → mapGet reg c = none →
      verifyEmailCode reg users c now = (VerifyResult.invalidCode, reg, users) ∧
      verifySmsCode reg users c ph2 now = (VerifyResult.invalidCode, reg, users) ∧
      verifyBotCode reg users c now = (VerifyResult.invalidCode, reg, users)) := by
  have hdel : mapGet (mapDelete code reg) code = none := mapGet_mapDelete_self hwf
  refine ⟨?_, ?_, ?_, ?_⟩
  · intro cd e hget hem hlive
    have hnx : ¬ now > cd.expiresAt := by omega
    simp only [verifyEmailCode, if_neg hc, hget, if_neg hnx, hem]
    exact ⟨⟨_, rfl⟩, by trivial⟩
  · intro cd ph hp hget hph hlive
    have hnx : ¬ now > cd.expiresAt := by omega
    have hor : ¬ (code = "" ∨ ph = "") := by
      intro h; rcases h with h | h
      · exact hc h
      · exact hp h
    have hmatch : ¬ cd.phone ≠ some ph := by rw [hph]; exact fun h => h rfl
    simp only [verifySmsCode, if_neg hor, hget, if_neg hmatch, if_neg hnx]
    exact ⟨⟨_, rfl⟩, by trivial⟩
  · intro users2 now2
    refine ⟨?_, ?_, ?_⟩
    · simp only [verifyEmailCode, if_neg hc, hdel]
    · simp only [verifyEmailCode, if_neg hc, hdel]
    · intro ph2 hp2
      have hor : ¬ (code = "" ∨ ph2 = "") := by
        intro h; rcases h with h | h
        · exact hc h
        · exact hp2 h
      simp only [verifySmsCode, if_neg hor, hdel]
  · intro c ph2 hc2 hp2 hnone
    have hor : ¬ (c = "" ∨ ph2 = "") := by
      intro h; rcases h with h | h
      · exact hc2 h
      · exact hp2 h
    refine ⟨?_, ?_, ?_⟩
    · simp only [verifyEmailCode, if_neg hc2, hnone]
    · simp only [verifySmsCode, if_neg hor, hnone]
    · simp only [verifyBotCode, if_neg hc2, hnone]

/-- Witness for C4: the seeded email code verifies once, then fails. -/
theorem verifyCode_single_use_witness :
    MapWF regW ∧ codeW ≠ "" ∧
    (∃ u, (verifyEmailCode regW [] codeW 0).1 = VerifyResult.ok u) ∧
    (verifyEmailCode regW [] codeW 0).2.1 = mapDelete codeW regW ∧
    (verifyEmailCode (mapDelete codeW regW) [] codeW 0).1 =
      VerifyResult.invalidCode := by
  have h := verifyCode_single_use regW [] codeW 0 (by decide) (by decide)
  have hA := h.1 { email := some emailW, expiresAt := 300000 } emailW rfl rfl (by decide)
  exact ⟨by decide, by decide, hA.1, hA.2, (h.2.2.1 [] 0).1⟩

/-- C5 counterexample: an expired SMS code queried with a non-matching phone
fails with InvalidCode and stays in the registry, not CodeExpired with
deletion as the claim states for every variant. -/
theorem verifyCode_expired_cex :
    ¬ ((verifySmsCode regSmsExpiredW [] codeW phoneW2 1000).1 =
        VerifyResult.codeExpired ∧
       (verifySmsCode regSmsExpiredW [] codeW phoneW2 1000).2.1 =
        mapDelete codeW regSmsExpiredW) := by decide

/-- C5 amended: an expired code is deleted and rejected with CodeExpired, with
no user looked up or created, in the email and bot variants unconditionally
and in the SMS variant when the supplied phone matches the bound phone. -/
theorem verifyCode_expired (reg : AuthCodes) (users : List User) (code : String)
    (now : Int) (hc : code ≠ "") (cd : CodeEntry)
    (hget : mapGet reg code = some cd) (hexp : cd.expiresAt < now) :
    verifyEmailCode reg users code now =
      (VerifyResult.codeExpired, mapDelete code reg, users) ∧
    verifyBotCode reg users code now =
      (VerifyResult.codeExpired, mapDelete code reg, users) ∧
    (∀ ph, ph ≠ "" → cd.phone = some ph →
      verifySmsCode reg users code ph now =
        (VerifyResult.codeExpired, mapDelete code reg, users)) := by
  have hx : now > cd.expiresAt := by omega
  refine ⟨?_, ?_, ?_⟩
  · simp only [verifyEmailCode, if_neg hc, hget, if_pos hx]
  · simp only [verifyBotCode, if_neg hc, hget, if_pos hx]
  · intro ph hp hph
    have hor : ¬ (code = "" ∨ ph = "") := by
      intro h; rcases h with h | h
      · exact hc h
      · exact hp h
    have hmatch : ¬ cd.phone ≠ some ph := by rw [hph]; exact fun h => h rfl
    simp only [verifySmsCode, if_neg hor, hget, if_neg hmatch, if_pos hx]

/-- Witness for the amended C5: the seeded expired email code is rejected as
expired and removed. -/
theorem verifyCode_expired_witness :
    codeW ≠ "" ∧
    mapGet regExpiredW codeW = some { email := some emailW, expiresAt := 0 } ∧
    ((0 : Int) < 1000) ∧
    verifyEmailCode regExpiredW [] codeW 1000 =
      (VerifyResult.codeExpired, mapDelete codeW regExpiredW, []) :=
  ⟨by decide, rfl, by decide,
    (verifyCode_expired regExpiredW [] codeW 1000 (by decide)
      { email := some emailW, expiresAt := 0 } rfl (by decide)).1⟩

/-- C9: an SMS verification with the wrong phone for a bound code fails with
InvalidCode and leaves the registry untouched, and the code afterwards still
verifies with the correct phone while unexpired. -/
theorem verifySms_mismatch (reg : AuthCodes) (users : List User)
    (code ph ph2 : String) (now : Int) (hc : code ≠ "") (hp2 : ph2 ≠ "")
    (cd : CodeEntry) (hget : mapGet reg code = some cd)
    (hbound : cd.phone = some ph) (hne : ph2 ≠ ph) :
    verifySmsCode reg users code ph2 now = (VerifyResult.invalidCode, reg, users) ∧
    (ph ≠ "" → now ≤ cd.expiresAt →
      (∃ u, (verifySmsCode reg users code ph now).1 = VerifyResult.ok u) ∧
      (verifySmsCode reg users code ph now).2.1 = mapDelete code reg) := by
  constructor
  · have hor : ¬ (code = "" ∨ ph2 = "") := by
      intro h; rcases h with h | h
      · exact hc h
      · exact hp2 h
    have hmm : cd.phone ≠ some ph2 := by
      rw [hbound]
      intro h
      exact hne (Option.some.inj h).symm
    simp only [verifySmsCode, if_neg hor, hget, if_pos hmm]
  · intro hp hlive
    have hor : ¬ (code = "" ∨ ph = "") := by
      intro h; rcases h with h | h
      · exact hc h
      · exact hp h
    have hmatch : ¬ cd.phone ≠ some ph := by rw [hbound]; exact fun h => h rfl
    have hnx : ¬ now > cd.expiresAt := by omega
    simp only [verifySmsCode, if_neg hor, hget, if_neg hmatch, if_neg hnx]
    exact ⟨⟨_, rfl⟩, by trivial⟩

/-- Witness for C9: the seeded SMS code with a wrong phone is rejected without
deletion, then verifies with the right phone. -/
theorem verifySms_mismatch_witness :
    codeW ≠ "" ∧ phoneW2 ≠ "" ∧
    mapGet regSmsW codeW = some { phone := some phoneW, expiresAt := 300000 } ∧
    phoneW2 ≠ phoneW ∧
    verifySmsCode regSmsW [] codeW phoneW2 0 =
      (VerifyResult.invalidCode, regSmsW, []) ∧
    (∃ u, (verifySmsCode regSmsW [] codeW phoneW 0).1 = VerifyResult.ok u) := by
  have h := verifySms_mismatch regSmsW [] codeW phoneW phoneW2 0 (by decide)
    (by decide) { phone := some phoneW, expiresAt := 300000 } rfl rfl (by decide)
  exact ⟨by decide, by decide, rfl, by decide, h.1, (h.2 (by decide) (by decide)).1⟩

/-- C8: issuance succeeds and binds the code for five minutes regardless of
the delivery outcome, in all three channels. -/
theorem issueCode_reports_success (reg : AuthCodes) (e ph tid code : String)
    (now : Int) (he : e ≠ "") (hp : ph ≠ "") (ht : tid ≠ "") (d : Bool) :
    sendEmailCode reg e code d now = sendEmailCode reg e code true now ∧
    (sendEmailCode reg e code d now).1 = IssueResult.success ∧
    mapGet (sendEmailCode reg e code d now).2 code =
      some { email := some e, expiresAt := now + codeTTLms } ∧
    sendSmsCode reg ph code d now = sendSmsCode reg ph code true now ∧
    (sendSmsCode reg ph code d now).1 = IssueResult.success ∧
    mapGet (sendSmsCode reg ph code d now).2 code =
      some { phone := some ph, expiresAt := now + codeTTLms } ∧
    requestBotCode reg tid code d now = requestBotCode reg tid code true now ∧
    (requestBotCode reg tid code d now).1 = IssueResult.success ∧
    mapGet (requestBotCode reg tid code d now).2 code =
      some { telegramId := some tid, expiresAt := now + codeTTLms } := by
  refine ⟨rfl, ?_, ?_, rfl, ?_, ?_, rfl, ?_, ?_⟩
  · simp only [sendEmailCode, if_neg he]
  · simp only [sendEmailCode, if_neg he]
    exact mapGet_mapSet_self reg code _
  · simp only [sendSmsCode, if_neg hp]
  · simp only [sendSmsCode, if_neg hp]
    exact mapGet_mapSet_self reg code _
  · simp only [requestBotCode, if_neg ht]
  · simp only [requestBotCode, if_neg ht]
    exact mapGet_mapSet_self [] code _

/-- Witness for C8: a failed delivery still reports success and leaves the
code bound. -/
theorem issueCode_reports_success_witness :
    emailW ≠ "" ∧ phoneW ≠ "" ∧ tidW ≠ "" ∧
    (sendEmailCode [] emailW codeW false 0).1 = IssueResult.success ∧
    mapGet (sendEmailCode [] emailW codeW false 0).2 codeW =
      some { email := some emailW, expiresAt := 0 + codeTTLms } :=
  ⟨by decide, by decide, by decide,
    (issueCode_reports_success [] emailW phoneW tidW codeW 0 (by decide)
      (by decide) (by decide) false).2.1,
    (issueCode_reports_success [] emailW phoneW tidW codeW 0 (by decide)
      (by decide) (by decide) false).2.2.1⟩

/-- C10: a bot-channel issuance replaces the whole registry with a fresh map
holding only the new code, so every other code is gone and no longer
verifies in any channel. -/
theorem requestBotCode_wipes (reg : AuthCodes) (tid code c : String)
    (now : Int) (d : Bool) (ht : tid ≠ "") (hne : c ≠ code) :
    (requestBotCode reg tid code d now).2 =
      [(code, { telegramId := some tid, expiresAt := now + codeTTLms })] ∧
    mapGet (requestBotCode reg tid code d now).2 c = none ∧
    (∀ users2 now2, c ≠ "" →
      verifyEmailCode (requestBotCode reg tid code d now).2 users2 c now2 =
        (VerifyResult.invalidCode, (requestBotCode reg tid code d now).2, users2) ∧
      verifyBotCode (requestBotCode reg tid code d now).2 users2 c now2 =
        (VerifyResult.invalidCode, (requestBotCode reg tid code d now).2, users2) ∧
      ∀ ph2, ph2 ≠ "" →
        verifySmsCode (requestBotCode reg tid code d now).2 users2 c ph2 now2 =
          (VerifyResult.invalidCode, (requestBotCode reg tid code d now).2,
            users2)) := by
  have hreg : (requestBotCode reg tid code d now).2 =
      [(code, { telegramId := some tid, expiresAt := now + codeTTLms })] := by
    simp only [requestBotCode, if_neg ht]
    rfl
  have hcb : (c == code) = false := beq_eq_false_iff_ne.mpr hne
  have hnone : mapGet (requestBotCode reg tid code d now).2 c = none := by
    rw [hreg]
    exact mapGet_singleton_ne hcb
  refine ⟨hreg, hnone, ?_⟩
  intro users2 now2 hc2
  refine ⟨?_, ?_, ?_⟩
  · simp only [verifyEmailCode, if_neg hc2, hnone]
  · simp only [verifyBotCode, if_neg hc2, hnone]
  · intro ph2 hp2
    have hor : ¬ (c = "" ∨ ph2 = "") := by
      intro h; rcases h with h | h
      · exact hc2 h
      · exact hp2 h
    simp only [verifySmsCode, if_neg hor, hnone]

/-- Witness for C10: after a bot issuance of a fresh code, the previously
issued email code is gone and no longer verifies. -/
theorem requestBotCode_wipes_witness :
    tidW ≠ "" ∧ codeW ≠ codeW2 ∧
    mapGet (requestBotCode regW tidW codeW2 true 0).2 codeW = none ∧
    (verifyEmailCode (requestBotCode regW tidW codeW2 true 0).2 [] codeW 5).1 =
      VerifyResult.invalidCode := by
  have h := requestBotCode_wipes regW tidW codeW2 codeW 0 true (by decide) (by decide)
  exact ⟨by decide, by decide, h.2.1, by rw [(h.2.2 [] 5 (by decide)).1]⟩

/-- Witness for C3 at quality 6 and quality -1. -/
theorem gradeReview_invalid_witness :
    (((6 : Int) < 0 ∨ 5 < (6 : Int)) ∧
      gradeReview [] uW tW 6 0 = (GradeResult.invalidInput, [])) ∧
    (((-1 : Int) < 0 ∨ 5 < (-1 : Int)) ∧
      gradeReview [] uW tW (-1) 0 = (GradeResult.invalidInput, [])) :=
  ⟨⟨Or.inr (by decide), gradeReview_invalid [] uW tW 6 0 (Or.inr (by decide))⟩,
   ⟨Or.inl (by decide), gradeReview_invalid [] uW tW (-1) 0 (Or.inl (by decide))⟩⟩

end YurLaw
